import Mathlib

/-!
Verification development for `src/ombt/rpcclient.py` (ombt, a benchmark tool
for oslo.messaging).

The Python source is shallowly embedded as follows:

* numeric samples and statistic fields are modelled by `ℚ` (the Python code
  computes with floats; the rational model is the exact idealization, which is
  what the specification's "within floating-point tolerance" refers to);
* Python `None` for the `min`/`max`/`average` fields of a fresh `Stats` is
  modelled by `Option ℚ`;
* Python truthiness (`x or y`, `not self.min`) treats both `None` and `0` as
  falsy; this is modelled explicitly by `pyOr` and by the `= 0` tests below;
* `Stats.std_deviation` in the source is `math.sqrt` of
  `sum_of_squares/count - average**2`; the embedding stores the radicand in
  the field `stdDevSq`.  Since the square root is a function of that field,
  two statistics agree on `std_deviation` whenever they agree on `stdDevSq`,
  and `std_deviation = 0` exactly when `stdDevSq = 0`;
* the unguarded float division `self.total / n` raises `ZeroDivisionError`
  in Python when the resulting count is zero; fallible operations therefore
  return `Except String Stats`.
-/

/-- Embedding of the fields of `Stats.__init__` (rpcclient.py lines 51-58).
`stdDevSq` holds the radicand of `std_deviation` (see module comment). -/
structure Stats where
  min : Option ℚ
  max : Option ℚ
  total : ℚ
  count : ℕ
  average : Option ℚ
  stdDevSq : Option ℚ
  sumOfSquares : ℚ
deriving Repr, DecidableEq

/-- The freshly constructed statistic of `Stats.__init__`: `min`, `max`,
`average`, `std_deviation` are `None`, the numeric accumulators are zero. -/
def Stats.empty : Stats :=
  { min := none, max := none, total := 0, count := 0,
    average := none, stdDevSq := none, sumOfSquares := 0 }

/-- Python `x or v` for an optional numeric `x`: both `None` and `0` are
falsy, so the default `v` is taken in either case (rpcclient.py lines 67-69). -/
def pyOr (x : Option ℚ) (v : ℚ) : ℚ :=
  match x with
  | none => v
  | some q => if q = 0 then v else q

/-- The state-changing body of `Stats._update` (rpcclient.py lines 66-81),
without the final division.  The guards on `self.min` / `self.max` translate
Python's `not self.min` (true for `None` and for `0`). -/
def Stats.updateCore (s : Stats) (value : ℚ) (minV maxV : Option ℚ)
    (cnt : ℕ) (squared : Option ℚ) : Stats :=
  let min_value := pyOr minV value
  let max_value := pyOr maxV value
  let sq := pyOr squared (value ^ 2)
  let newMin : Option ℚ :=
    match s.min with
    | none => some min_value
    | some m => if m = 0 ∨ min_value < m then some min_value else some m
  let newMax : Option ℚ :=
    match s.max with
    | none => some max_value
    | some m => if m = 0 ∨ m < max_value then some max_value else some m
  let total := s.total + value
  let count := s.count + cnt
  let sumsq := s.sumOfSquares + sq
  let n : ℚ := (count : ℚ)
  let avg := total / n
  { min := newMin, max := newMax, total := total, count := count,
    average := some avg, stdDevSq := some (sumsq / n - avg ^ 2),
    sumOfSquares := sumsq }

/-- Embedding of `Stats._update`.  When the updated count `n` is zero the
Python statement `self.average = self.total / n` raises `ZeroDivisionError`
(the division is unguarded); this is modelled by the error branch.  (In
Python the exception is raised after the accumulator fields were already
mutated; the half-mutated object is not observed by any caller in the
source, so the embedding simply reports the error.) -/
def Stats.updateFull (s : Stats) (value : ℚ) (minV maxV : Option ℚ)
    (cnt : ℕ) (squared : Option ℚ) : Except String Stats :=
  if s.count + cnt = 0 then Except.error "ZeroDivisionError"
  else Except.ok (s.updateCore value minV maxV cnt squared)

/-- Embedding of `Stats.update` (rpcclient.py lines 60-61): a single-sample
update, `self._update(value)` with all keyword arguments defaulted. -/
def Stats.update (s : Stats) (value : ℚ) : Except String Stats :=
  s.updateFull value none none 1 none

/-- The always-successful result of `Stats.update` (the count after a
single-sample update is positive, so the division cannot fail). -/
def Stats.update1 (s : Stats) (value : ℚ) : Stats :=
  s.updateCore value none none 1 none

/-- Embedding of `Stats.merge` (rpcclient.py lines 63-64):
`self._update(stats.total, min_value=stats.min, max_value=stats.max,
count=stats.count, squared=stats._sum_of_squares)`. -/
def Stats.merge (s other : Stats) : Except String Stats :=
  s.updateFull other.total other.min other.max other.count
    (some other.sumOfSquares)

/-- Building a statistic by calling `update` element-by-element on a list of
samples, starting from a freshly constructed `Stats`. -/
def Stats.ofList (l : List ℚ) : Stats :=
  l.foldl Stats.update1 Stats.empty

/-- The invariant claimed by the specification for a statistic that has
absorbed at least one sample: `min ≤ average ≤ max` and `count ≥ 1`
(stated on the embedded fields; `false` if any of the three derived
fields is still `None`). -/
def Stats.invariantOK (s : Stats) : Bool :=
  match s.min, s.max, s.average with
  | some mn, some mx, some avg =>
      decide (mn ≤ avg) && decide (avg ≤ mx) && decide (1 ≤ s.count)
  | _, _, _ => false

/-- The per-minion latency statistic of the specification's concrete
scenario: `min=1, max=1, count=1, total=1, sum_of_squares=1` (with the
derived fields a single `update(1)` produces: `average=1`,
`std_deviation=0`). -/
def oneStat : Stats :=
  { min := some 1, max := some 1, total := 1, count := 1,
    average := some 1, stdDevSq := some 0, sumOfSquares := 1 }

/-- Reduction of monadic bind on a successful `Except` value; used to
evaluate the embedded fallible operations on concrete inputs. -/
theorem ok_bind {ε α β : Type} (a : α) (f : α → Except ε β) :
    (Except.ok a : Except ε α) >>= f = f a := rfl

/-!
Mathematical model used to reason about `Stats`: the exact five-field
summary of a non-empty multiset of samples.  `Summary` is proof machinery,
not part of the embedding of the source; the claim theorems below mention
only the embedded definitions.
-/

/-- Exact summary of a non-empty collection of samples: true minimum,
true maximum, sum, size, and sum of squares. -/
structure Summary where
  mn : ℚ
  mx : ℚ
  tot : ℚ
  cnt : ℕ
  sq : ℚ
deriving Repr, DecidableEq

/-- The exact summary of the single sample `v`. -/
def Summary.single (v : ℚ) : Summary := ⟨v, v, v, 1, v ^ 2⟩

/-- The exact summary of the disjoint union of two sample collections. -/
def Summary.add (a b : Summary) : Summary :=
  ⟨min a.mn b.mn, max a.mx b.mx, a.tot + b.tot, a.cnt + b.cnt, a.sq + b.sq⟩

/-- The `Stats` object whose stored fields agree with the exact summary
`a` (with the derived fields recomputed from it, as the source does). -/
def Summary.toStats (a : Summary) : Stats :=
  { min := some a.mn, max := some a.mx, total := a.tot, count := a.cnt,
    average := some (a.tot / (a.cnt : ℚ)),
    stdDevSq := some (a.sq / (a.cnt : ℚ) - (a.tot / (a.cnt : ℚ)) ^ 2),
    sumOfSquares := a.sq }

/-- A summary that can arise from a non-empty collection of nonzero
samples: positive size, nonzero extrema (so that Python truthiness cannot
misfire on them), positive sum of squares, and extrema that really bound
the mean. -/
def Summary.sound (a : Summary) : Prop :=
  1 ≤ a.cnt ∧ a.mn ≠ 0 ∧ a.mx ≠ 0 ∧ 0 < a.sq ∧
    a.mn * (a.cnt : ℚ) ≤ a.tot ∧ a.tot ≤ a.mx * (a.cnt : ℚ)

/-- Absorbing one further sample into an exact summary. -/
def Summary.step (a : Summary) (x : ℚ) : Summary := a.add (Summary.single x)

/-- The exact summary of the non-empty sample list `v :: l`. -/
def summarize (v : ℚ) (l : List ℚ) : Summary :=
  l.foldl Summary.step (Summary.single v)

theorem Summary.addAssoc (a b c : Summary) :
    (a.add b).add c = a.add (b.add c) := by
  simp [Summary.add, min_assoc, max_assoc, add_assoc]

theorem Summary.addComm (a b : Summary) : a.add b = b.add a := by
  simp only [Summary.add, Summary.mk.injEq]
  exact ⟨min_comm _ _, max_comm _ _, add_comm _ _, Nat.add_comm _ _,
    add_comm _ _⟩

theorem sound_single {v : ℚ} (hv : v ≠ 0) : (Summary.single v).sound := by
  refine ⟨le_refl 1, hv, hv, ?_, ?_, ?_⟩
  · rw [Summary.single]
    calc (0:ℚ) < v * v := mul_self_pos.mpr hv
    _ = v ^ 2 := (pow_two v).symm
  · simp [Summary.single]
  · simp [Summary.single]

theorem sound_add {a b : Summary} (ha : a.sound) (hb : b.sound) :
    (a.add b).sound := by
  obtain ⟨hac, hamn, hamx, hasq, haml, hamu⟩ := ha
  obtain ⟨hbc, hbmn, hbmx, hbsq, hbml, hbmu⟩ := hb
  have hca : (0:ℚ) ≤ (a.cnt : ℚ) := Nat.cast_nonneg _
  have hcb : (0:ℚ) ≤ (b.cnt : ℚ) := Nat.cast_nonneg _
  refine ⟨by simp [Summary.add]; omega, ?_, ?_, ?_, ?_, ?_⟩
  · rcases le_total a.mn b.mn with h | h
    · simpa [Summary.add, min_eq_left h] using hamn
    · simpa [Summary.add, min_eq_right h] using hbmn
  · rcases le_total a.mx b.mx with h | h
    · simpa [Summary.add, max_eq_right h] using hbmx
    · simpa [Summary.add, max_eq_left h] using hamx
  · simpa [Summary.add] using add_pos hasq hbsq
  · have h1 : min a.mn b.mn * (a.cnt : ℚ) ≤ a.mn * (a.cnt : ℚ) :=
      mul_le_mul_of_nonneg_right (min_le_left _ _) hca
    have h2 : min a.mn b.mn * (b.cnt : ℚ) ≤ b.mn * (b.cnt : ℚ) :=
      mul_le_mul_of_nonneg_right (min_le_right _ _) hcb
    simp only [Summary.add]
    push_cast
    nlinarith [h1, h2, haml, hbml]
  · have h1 : a.mx * (a.cnt : ℚ) ≤ max a.mx b.mx * (a.cnt : ℚ) :=
      mul_le_mul_of_nonneg_right (le_max_left _ _) hca
    have h2 : b.mx * (b.cnt : ℚ) ≤ max a.mx b.mx * (b.cnt : ℚ) :=
      mul_le_mul_of_nonneg_right (le_max_right _ _) hcb
    simp only [Summary.add]
    push_cast
    nlinarith [h1, h2, hamu, hbmu]

/-!
Transfer lemmas: on statistics whose stored fields agree with a sound exact
summary, the embedded `Stats` operations compute exactly the `Summary`
operations (the Python truthiness tests cannot misfire because the extrema
and the sum of squares are nonzero).
-/

theorem min_branch {m v : ℚ} (hm : m ≠ 0) :
    (if m = 0 ∨ v < m then some v else some m) = some (min m v) := by
  rcases lt_or_le v m with h | h
  · rw [if_pos (Or.inr h), min_eq_right h.le]
  · rw [if_neg ?_, min_eq_left h]
    rintro (h0 | hlt)
    · exact hm h0
    · exact absurd hlt (not_lt.mpr h)

theorem max_branch {m v : ℚ} (hm : m ≠ 0) :
    (if m = 0 ∨ m < v then some v else some m) = some (max m v) := by
  rcases lt_or_le m v with h | h
  · rw [if_pos (Or.inr h), max_eq_right h.le]
  · rw [if_neg ?_, max_eq_left h]
    rintro (h0 | hlt)
    · exact hm h0
    · exact absurd hlt (not_lt.mpr h)

theorem update1_toStats (a : Summary) (hmn : a.mn ≠ 0) (hmx : a.mx ≠ 0)
    (v : ℚ) : a.toStats.update1 v = (a.add (Summary.single v)).toStats := by
  simp only [Stats.update1, Stats.updateCore, Summary.toStats, Summary.add,
    Summary.single, pyOr, min_branch hmn, max_branch hmx]

theorem merge_toStats (a b : Summary) (ha : a.sound) (hb : b.sound) :
    a.toStats.merge b.toStats = Except.ok ((a.add b).toStats) := by
  obtain ⟨hac, hamn, hamx, -, -, -⟩ := ha
  obtain ⟨hbc, hbmn, hbmx, hbsq, -, -⟩ := hb
  simp only [Stats.merge, Stats.updateFull, Summary.toStats]
  rw [if_neg (by omega)]
  simp only [Stats.updateCore, Summary.add, pyOr, if_neg hbmn, if_neg hbmx,
    if_neg (ne_of_gt hbsq), min_branch hamn, max_branch hamx]

theorem empty_update1 (v : ℚ) :
    Stats.empty.update1 v = (Summary.single v).toStats := by
  simp [Stats.update1, Stats.updateCore, Stats.empty, Summary.single,
    Summary.toStats, pyOr]

theorem empty_merge (b : Summary) (hb : b.sound) :
    Stats.empty.merge b.toStats = Except.ok b.toStats := by
  obtain ⟨hbc, hbmn, hbmx, hbsq, -, -⟩ := hb
  simp only [Stats.merge, Stats.updateFull, Summary.toStats, Stats.empty]
  rw [if_neg (by omega)]
  simp [Stats.updateCore, pyOr, if_neg hbmn, if_neg hbmx,
    if_neg (ne_of_gt hbsq)]

theorem invariantOK_toStats {a : Summary} (ha : a.sound) :
    a.toStats.invariantOK = true := by
  obtain ⟨hac, -, -, -, haml, hamu⟩ := ha
  have hc : (0:ℚ) < (a.cnt : ℚ) := by
    have : 0 < a.cnt := by omega
    exact_mod_cast this
  simp only [Summary.toStats, Stats.invariantOK, Bool.and_eq_true,
    decide_eq_true_eq]
  exact ⟨⟨(le_div_iff₀ hc).mpr haml, (div_le_iff₀ hc).mpr hamu⟩, hac⟩

theorem foldl_update1_toStats (l : List ℚ) (hl : ∀ x ∈ l, x ≠ 0) :
    ∀ a : Summary, a.sound →
      l.foldl Stats.update1 a.toStats = (l.foldl Summary.step a).toStats ∧
        (l.foldl Summary.step a).sound := by
  induction l with
  | nil => exact fun a ha => ⟨rfl, ha⟩
  | cons x t ih =>
    intro a ha
    have hx : x ≠ 0 := hl x (List.mem_cons_self _ _)
    have ht : ∀ y ∈ t, y ≠ 0 := fun y hy => hl y (List.mem_cons_of_mem _ hy)
    have hstep : (Summary.step a x).sound := sound_add ha (sound_single hx)
    rw [List.foldl_cons, List.foldl_cons,
      update1_toStats a ha.2.1 ha.2.2.1 x]
    exact ih ht (Summary.step a x) hstep

theorem ofList_toStats (v : ℚ) (l : List ℚ) (hv : v ≠ 0)
    (hl : ∀ x ∈ l, x ≠ 0) :
    Stats.ofList (v :: l) = (summarize v l).toStats ∧ (summarize v l).sound := by
  unfold Stats.ofList summarize
  rw [List.foldl_cons, empty_update1]
  exact foldl_update1_toStats l hl (Summary.single v) (sound_single hv)

theorem foldl_step_add (l : List ℚ) :
    ∀ a b : Summary, l.foldl Summary.step (a.add b) =
      a.add (l.foldl Summary.step b) := by
  induction l with
  | nil => exact fun a b => rfl
  | cons x t ih =>
    intro a b
    rw [List.foldl_cons, List.foldl_cons, Summary.step, Summary.addAssoc]
    exact ih a (b.add (Summary.single x))

theorem summarize_append (v w : ℚ) (l1 l2 : List ℚ) :
    summarize v (l1 ++ w :: l2) = (summarize v l1).add (summarize w l2) := by
  unfold summarize
  rw [List.foldl_append, List.foldl_cons]
  have : Summary.step (List.foldl Summary.step (Summary.single v) l1) w =
      (List.foldl Summary.step (Summary.single v) l1).add
        (Summary.single w) := rfl
  rw [this, foldl_step_add]

/-!
Operation sequences on an aggregate statistic, for the invariant claim:
a run of the public interface is a list of `update` and `merge` calls,
starting from a freshly constructed `Stats`.
-/

/-- One public operation on a `Stats` aggregate: a single-sample `update`,
or a `merge` of an argument statistic that was itself built by
element-by-element updates from the given sample list. -/
inductive StatOp where
  | upd : ℚ → StatOp
  | mrg : List ℚ → StatOp
deriving Repr, DecidableEq

/-- The restriction under which the code computes exact statistics: every
merged argument was built from at least one update, and every sample
involved is nonzero (zero samples trip the Python falsy-value tests). -/
def StatOp.wellFormed : StatOp → Prop
  | .upd v => v ≠ 0
  | .mrg l => l ≠ [] ∧ ∀ x ∈ l, x ≠ 0

/-- Applying one public operation to an aggregate. -/
def applyOp (s : Stats) : StatOp → Except String Stats
  | .upd v => s.update v
  | .mrg l => s.merge (Stats.ofList l)

/-- Applying a sequence of public operations, aborting on a raised
exception. -/
def applyOps (s : Stats) (ops : List StatOp) : Except String Stats :=
  ops.foldlM applyOp s

/-- A single-sample `update` never raises: the updated count is positive. -/
theorem update_ok (s : Stats) (v : ℚ) :
    s.update v = Except.ok (s.update1 v) := by
  simp [Stats.update, Stats.updateFull, Stats.update1]

theorem applyOps_toStats (ops : List StatOp)
    (hops : ∀ op ∈ ops, op.wellFormed) :
    ∀ a : Summary, a.sound →
      ∃ b : Summary, b.sound ∧ applyOps a.toStats ops = Except.ok b.toStats := by
  induction ops with
  | nil => exact fun a ha => ⟨a, ha, rfl⟩
  | cons op rest ih =>
    intro a ha
    have hop := hops op (List.mem_cons_self _ _)
    have hrest : ∀ op2 ∈ rest, op2.wellFormed :=
      fun op2 h2 => hops op2 (List.mem_cons_of_mem _ h2)
    cases op with
    | upd v =>
      have hv : v ≠ 0 := hop
      have h1 : applyOps a.toStats (StatOp.upd v :: rest) =
          applyOps (a.add (Summary.single v)).toStats rest := by
        rw [applyOps, List.foldlM_cons]
        rw [show applyOp a.toStats (StatOp.upd v) =
              Except.ok ((a.add (Summary.single v)).toStats) by
            rw [applyOp, update_ok, update1_toStats a ha.2.1 ha.2.2.1 v]]
        rw [ok_bind]
        rfl
      rw [h1]
      exact ih hrest _ (sound_add ha (sound_single hv))
    | mrg l =>
      cases l with
      | nil => exact absurd rfl hop.1
      | cons w t =>
        obtain ⟨-, hwt⟩ := hop
        have hw : w ≠ 0 := hwt w (List.mem_cons_self _ _)
        have ht : ∀ x ∈ t, x ≠ 0 := fun x hx => hwt x (List.mem_cons_of_mem _ hx)
        obtain ⟨heq, hsound⟩ := ofList_toStats w t hw ht
        have h1 : applyOps a.toStats (StatOp.mrg (w :: t) :: rest) =
            applyOps (a.add (summarize w t)).toStats rest := by
          rw [applyOps, List.foldlM_cons]
          rw [show applyOp a.toStats (StatOp.mrg (w :: t)) =
                Except.ok ((a.add (summarize w t)).toStats) by
              rw [applyOp, heq, merge_toStats a _ ha hsound]]
          rw [ok_bind]
          rfl
        rw [h1]
        exact ih hrest _ (sound_add ha hsound)

theorem empty_applyOp_sound (op : StatOp) (hop : op.wellFormed) :
    ∃ b : Summary, b.sound ∧ applyOp Stats.empty op = Except.ok b.toStats := by
  cases op with
  | upd v =>
    exact ⟨Summary.single v, sound_single hop,
      by rw [applyOp, update_ok, empty_update1]⟩
  | mrg l =>
    cases l with
    | nil => exact absurd rfl hop.1
    | cons w t =>
      obtain ⟨-, hwt⟩ := hop
      have hw : w ≠ 0 := hwt w (List.mem_cons_self _ _)
      have ht : ∀ x ∈ t, x ≠ 0 := fun x hx => hwt x (List.mem_cons_of_mem _ hx)
      obtain ⟨heq, hsound⟩ := ofList_toStats w t hw ht
      exact ⟨summarize w t, hsound,
        by rw [applyOp, heq, empty_merge _ hsound]⟩

/-!
Claims C1, C2, C3.
-/

/-- C1 (counterexample): the claim fails as stated.  For the sample
sequence `[5, 3, 0]` split into `[5]` and `[3, 0]`, the element-by-element
statistic has `min = 0`, but merging the two sub-sequence statistics yields
`min = 3`: the stored minimum `0` of the second statistic is falsy in
Python, so `merge` substitutes the total `3` for it. -/
theorem C1_counterexample :
    (Stats.ofList [5]).merge (Stats.ofList [3, 0]) ≠
      Except.ok (Stats.ofList [5, 3, 0]) := by
  norm_num [Stats.ofList, Stats.merge, Stats.updateFull, Stats.update1,
    Stats.updateCore, pyOr, Stats.empty]

/-- C1 (amended): provided every sample is nonzero, building one statistic
by element-by-element `update` over `l1 ++ l2` gives exactly the statistic
obtained by building two independent statistics over the non-empty halves
`l1` and `l2` and merging the second into the first — the resulting records
are equal in every field (`min`, `max`, `count`, `total`, `average`,
`stdDevSq`, hence also the derived `std_deviation`).  In particular (second
conjunct, no nonzero restriction needed), merging three statistics each
equal to `(min=1, max=1, count=1, total=1, sum_of_squares=1)` into a fresh
aggregate yields `(min=1, max=1, count=3, total=3, average=1,
std_deviation=0)`. -/
theorem C1_split_merge (l1 l2 : List ℚ) (h1 : l1 ≠ []) (h2 : l2 ≠ [])
    (hnz : ∀ x ∈ l1 ++ l2, x ≠ 0) :
    (Stats.ofList l1).merge (Stats.ofList l2) =
        Except.ok (Stats.ofList (l1 ++ l2)) ∧
      [oneStat, oneStat, oneStat].foldlM Stats.merge Stats.empty =
        Except.ok { min := some 1, max := some 1, total := 3, count := 3,
                    average := some 1, stdDevSq := some 0,
                    sumOfSquares := 3 } := by
  constructor
  · obtain ⟨v, t1, rfl⟩ := List.exists_cons_of_ne_nil h1
    obtain ⟨w, t2, rfl⟩ := List.exists_cons_of_ne_nil h2
    have hv : v ≠ 0 := hnz v (by simp)
    have ht1 : ∀ x ∈ t1, x ≠ 0 := fun x hx => hnz x (by simp [hx])
    have hw : w ≠ 0 := hnz w (by simp)
    have ht2 : ∀ x ∈ t2, x ≠ 0 := fun x hx => hnz x (by simp [hx])
    obtain ⟨e1, s1⟩ := ofList_toStats v t1 hv ht1
    obtain ⟨e2, s2⟩ := ofList_toStats w t2 hw ht2
    have hall : ∀ x ∈ t1 ++ w :: t2, x ≠ 0 := by
      intro x hx
      rcases List.mem_append.mp hx with h | h
      · exact ht1 x h
      · rcases List.mem_cons.mp h with h | h
        · exact h ▸ hw
        · exact ht2 x h
    obtain ⟨e3, s3⟩ := ofList_toStats v (t1 ++ w :: t2) hv hall
    have happ : (v :: t1) ++ (w :: t2) = v :: (t1 ++ w :: t2) := rfl
    rw [e1, e2, happ, e3, summarize_append, merge_toStats _ _ s1 s2]
  · norm_num [List.foldlM, Stats.merge, Stats.updateFull, Stats.updateCore,
      pyOr, Stats.empty, oneStat, ok_bind]

/-- Witness for C1: the amended claim at the concrete split `[5]`, `[3]`. -/
theorem C1_split_merge_witness :
    ((Stats.ofList [5]).merge (Stats.ofList [3]) =
        Except.ok (Stats.ofList ([5] ++ [3]))) ∧
      [oneStat, oneStat, oneStat].foldlM Stats.merge Stats.empty =
        Except.ok { min := some 1, max := some 1, total := 3, count := 3,
                    average := some 1, stdDevSq := some 0,
                    sumOfSquares := 3 } :=
  C1_split_merge [5] [3] (by simp) (by simp) (by norm_num)

/-- C2 (counterexample): the claim fails as stated.  After the update
sequence `0, 5` the stored minimum is `5` (the earlier minimum `0` was
falsy, so the second update overwrote it) while the average is `5/2`, so
`min ≤ average` fails. -/
theorem C2_counterexample :
    (applyOps Stats.empty [StatOp.upd 0, StatOp.upd 5]).map
      Stats.invariantOK = Except.ok false := by
  norm_num [applyOps, List.foldlM, applyOp, Stats.update, Stats.updateFull,
    Stats.updateCore, pyOr, Stats.empty, ok_bind, Except.map,
    Stats.invariantOK]

/-- C2 (amended): for every non-empty sequence of `update` and `merge`
operations on a fresh aggregate in which every sample is nonzero and every
merged argument was built from at least one update, no operation raises,
and afterwards `min ≤ average ≤ max` and `count ≥ 1` hold. -/
theorem C2_invariant (ops : List StatOp) (hne : ops ≠ [])
    (hops : ∀ op ∈ ops, op.wellFormed) :
    (applyOps Stats.empty ops).map Stats.invariantOK = Except.ok true := by
  obtain ⟨op, rest, rfl⟩ := List.exists_cons_of_ne_nil hne
  obtain ⟨b0, hb0, hop0⟩ :=
    empty_applyOp_sound op (hops op (List.mem_cons_self _ _))
  have hrest : ∀ op2 ∈ rest, op2.wellFormed :=
    fun op2 h2 => hops op2 (List.mem_cons_of_mem _ h2)
  obtain ⟨b, hb, happ⟩ := applyOps_toStats rest hrest b0 hb0
  have hall : applyOps Stats.empty (op :: rest) = Except.ok b.toStats := by
    rw [applyOps, List.foldlM_cons, hop0, ok_bind]
    exact happ
  rw [hall]
  simp [Except.map, invariantOK_toStats hb]

/-- Witness for C2: the amended claim at the concrete operation sequence
consisting of one `update(1)`. -/
theorem C2_invariant_witness :
    (applyOps Stats.empty [StatOp.upd 1]).map Stats.invariantOK =
      Except.ok true :=
  C2_invariant [StatOp.upd 1] (by simp)
    (by
      intro op hop
      simp only [List.mem_singleton] at hop
      subst hop
      norm_num [StatOp.wellFormed])

/-- C3 (counterexample): `merge` is not commutative as claimed.  With
`A = Stats.ofList [5]` (one sample `5`) and `B = Stats.ofList [3, 0]`
(samples `3, 0`), merging `B` into `A` yields `min = 3` while merging `A`
into `B` yields `min = 5`. -/
theorem C3_counterexample :
    (Stats.ofList [5]).merge (Stats.ofList [3, 0]) ≠
      (Stats.ofList [3, 0]).merge (Stats.ofList [5]) := by
  norm_num [Stats.ofList, Stats.merge, Stats.updateFull, Stats.update1,
    Stats.updateCore, pyOr, Stats.empty]

/-- C3 (amended): for statistics built from at least one sample with all
samples nonzero, `merge` is commutative: merging `B` into `A` and merging
`A` into `B` produce identical records — the same five summary fields
(`min`, `max`, `count`, `total`, `sumOfSquares`) and the same derived
`average` and `stdDevSq` (hence `std_deviation`). -/
theorem C3_merge_comm (l1 l2 : List ℚ) (h1 : l1 ≠ []) (h2 : l2 ≠ [])
    (hnz : ∀ x ∈ l1 ++ l2, x ≠ 0) :
    (Stats.ofList l1).merge (Stats.ofList l2) =
      (Stats.ofList l2).merge (Stats.ofList l1) := by
  obtain ⟨v, t1, rfl⟩ := List.exists_cons_of_ne_nil h1
  obtain ⟨w, t2, rfl⟩ := List.exists_cons_of_ne_nil h2
  have hv : v ≠ 0 := hnz v (by simp)
  have ht1 : ∀ x ∈ t1, x ≠ 0 := fun x hx => hnz x (by simp [hx])
  have hw : w ≠ 0 := hnz w (by simp)
  have ht2 : ∀ x ∈ t2, x ≠ 0 := fun x hx => hnz x (by simp [hx])
  obtain ⟨e1, s1⟩ := ofList_toStats v t1 hv ht1
  obtain ⟨e2, s2⟩ := ofList_toStats w t2 hw ht2
  rw [e1, e2, merge_toStats _ _ s1 s2, merge_toStats _ _ s2 s1,
    Summary.addComm]

/-- Witness for C3: commutativity at the concrete statistics built from
`[5]` and `[3]`. -/
theorem C3_merge_comm_witness :
    (Stats.ofList [5]).merge (Stats.ofList [3]) =
      (Stats.ofList [3]).merge (Stats.ofList [5]) :=
  C3_merge_comm [5] [3] (by simp) (by simp) (by norm_num)

/-!
Controller model.  `RPCController` and `NotifyController` (rpcclient.py
lines 181-239 and 481-532) keep per-run state: `_result_count`, the
aggregate `_throughput` and `_latency` statistics, and the completion event
`_done`.  Reports arrive as RPC casts handled by `client_result`;
concurrency is abstracted by passing the handler the list of reports it
processes, in arrival order, and the recorded minion count it reads.
-/

/-- The `results` dictionary a minion sends to `client_result`
(rpcclient.py lines 315-317): a latency statistic, a throughput value and
the iteration count. -/
structure Report where
  latency : Stats
  throughput : ℚ
  calls : ℕ
deriving Repr, DecidableEq

/-- Per-run mutable state of a controller: `_result_count`, `_throughput`,
`_latency`, and the completion event `_done` (set = `true`). -/
structure CtrlState where
  resultCount : ℕ
  throughput : Stats
  latency : Stats
  done : Bool
deriving Repr, DecidableEq

/-- Embedding of `client_result` (rpcclient.py lines 228-239, identical in
shape at lines 521-532): increment `_result_count`, `update` the throughput
aggregate with the reported throughput as one sample, `merge` the reported
latency statistic into the latency aggregate, and set `_done` when the new
count equals the recorded minion count `m` (`self._minions[...]`).  The
`merge` can raise `ZeroDivisionError` (empty-into-empty); the error is
propagated. -/
def clientResult (m : ℕ) (st : CtrlState) (r : Report) :
    Except String CtrlState := do
  let th ← st.throughput.update r.throughput
  let lat ← st.latency.merge r.latency
  Except.ok { resultCount := st.resultCount + 1, throughput := th,
              latency := lat,
              done := st.done || decide (st.resultCount + 1 = m) }

/-- The controller per-run state right after a dispatch: count 0, empty
aggregates (as `RPCController.__init__` creates them), event clear. -/
def initCtrl : CtrlState :=
  { resultCount := 0, throughput := Stats.empty, latency := Stats.empty,
    done := false }

/-- Processing a sequence of reports with a fixed recorded minion count. -/
def processReports (m : ℕ) (st : CtrlState) (l : List Report) :
    Except String CtrlState :=
  l.foldlM (clientResult m) st

/-- Processing a sequence of reports where each report sees its own recorded
minion count (the `_minions` entry may change between reports, e.g. by a
late `client_pong`). -/
def processReportsVar (st : CtrlState) (l : List (ℕ × Report)) :
    Except String CtrlState :=
  l.foldlM (fun s p => clientResult p.1 s p.2) st

/-- A report with the given throughput value and a one-sample latency
statistic. -/
def mkReport (t : ℚ) : Report := { latency := oneStat, throughput := t, calls := 1 }

/-- What a test-run invocation reports to the operator.  `noClients` models
printing the no-clients diagnostic (`"No RPC clients visible"` resp.
`"No notifier clients visible"`); `timedOut` models printing
`"... test timed out!"`; `completed` models `_print_stats`, which prints the
latency aggregate, the throughput aggregate and the reporter count — a
timed-out run carries no statistics at all. -/
inductive RunOutcome where
  | noClients : RunOutcome
  | timedOut : RunOutcome
  | completed : Stats → Stats → ℕ → RunOutcome
deriving Repr, DecidableEq

/-- Observable effect of one `_run_test` / `run_notification_test`
invocation: the reported outcome, the controller per-run state when the
call returns, whether the test parameters were broadcast to the minions,
and the Python return value (`-1` on the no-clients path, `None`
otherwise). -/
structure RunTrace where
  outcome : RunOutcome
  state : CtrlState
  didBroadcast : Bool
  retval : Option Int
deriving Repr, DecidableEq

/-- Embedding of `RPCController._run_test` (rpcclient.py lines 199-212).
`minions` is `self._minions.get(RPC_CLIENT)` (`none` when the key is
absent); `reports` are the per-minion reports the `client_result` handler
processes during the run, in arrival order; `waitOk` is the value of
`self._done.wait(self._timeout)`.  On the guard path (no visible RPC
clients) the method prints the diagnostic and returns `-1` before touching
any per-run state and without broadcasting; otherwise it sets
`_result_count = 0`, clears `_done` (the aggregate statistics are NOT
touched), broadcasts, and reports either the timeout message or the
aggregate statistics. -/
def runRpcTest (minions : Option ℕ) (st : CtrlState) (reports : List Report)
    (waitOk : Bool) : Except String RunTrace :=
  match minions with
  | none => Except.ok ⟨RunOutcome.noClients, st, false, some (-1)⟩
  | some 0 => Except.ok ⟨RunOutcome.noClients, st, false, some (-1)⟩
  | some (m + 1) => do
      let st2 ← processReports (m + 1)
        { st with resultCount := 0, done := false } reports
      if waitOk then
        Except.ok ⟨RunOutcome.completed st2.latency st2.throughput
          st2.resultCount, st2, true, none⟩
      else
        Except.ok ⟨RunOutcome.timedOut, st2, true, none⟩

/-- Embedding of `NotifyController.run_notification_test` (rpcclient.py
lines 502-515).  Identical to `runRpcTest` except on the timeout branch:
line 513 is `print("%s test timed out!" % meth)`, but no name `meth` is in
scope there (it is a parameter of `RPCController._run_test` only), so the
branch raises `NameError` instead of printing the timeout diagnostic. -/
def runNotifyTest (minions : Option ℕ) (st : CtrlState)
    (reports : List Report) (waitOk : Bool) : Except String RunTrace :=
  match minions with
  | none => Except.ok ⟨RunOutcome.noClients, st, false, some (-1)⟩
  | some 0 => Except.ok ⟨RunOutcome.noClients, st, false, some (-1)⟩
  | some (m + 1) => do
      let st2 ← processReports (m + 1)
        { st with resultCount := 0, done := false } reports
      if waitOk then
        Except.ok ⟨RunOutcome.completed st2.latency st2.throughput
          st2.resultCount, st2, true, none⟩
      else
        Except.error "NameError: name meth is not defined"

/-- Models `threading.Event.wait(timeout)` as seen by the run: with a
timeout it returns the flag (possibly `false`); with `timeout=None` it
returns only once the flag is set — `none` means the call never returns. -/
def waitOutcome : Option ℚ → Bool → Option Bool
  | some _, d => some d
  | none, d => if d then some true else none

/-- `noHit rc l` says that along the report sequence `l`, starting from
received count `rc`, the incremented count never equals the recorded
minion count seen by that report. -/
def noHit (rc : ℕ) : List (ℕ × Report) → Bool
  | [] => true
  | p :: rest => decide (rc + 1 ≠ p.1) && noHit (rc + 1) rest

/-- Reduction of monadic bind on a failed `Except` value. -/
theorem error_bind {ε α β : Type} (e : ε) (f : α → Except ε β) :
    (Except.error e : Except ε α) >>= f = Except.error e := rfl

/-- Closed form of `clientResult`: the handler increments the count by one,
takes the throughput as one single sample (`update1`), merges the latency
report, and sets `_done` exactly when the new count equals the recorded
minion count; an exception from the latency merge propagates. -/
theorem clientResult_eq (m : ℕ) (st : CtrlState) (r : Report) :
    clientResult m st r = (st.latency.merge r.latency).map
      (fun lat => { resultCount := st.resultCount + 1,
                    throughput := st.throughput.update1 r.throughput,
                    latency := lat,
                    done := st.done || decide (st.resultCount + 1 = m) }) := by
  rw [clientResult, update_ok, ok_bind]
  cases h : st.latency.merge r.latency with
  | error e => rw [error_bind, Except.map]
  | ok lat => rw [ok_bind, Except.map]

/-!
Claims C4, C5, C6, C7, C9, C10.
-/

/-- C4 (confirmed): for every incoming report, `client_result` merges the
reported latency statistic into the aggregate via `merge`, takes the
reported throughput as one single sample of the throughput aggregate (an
`update`, not a merge), increments the received count by one, and signals
completion exactly when the new count equals the recorded minion count
(first conjunct); consequently reports with throughputs 100, 200, 300
arriving at a fresh aggregate with 3 recorded minions produce a throughput
statistic with `min=100`, `max=300`, `count=3`, `average=200`, and the
completion event set (second conjunct). -/
theorem C4_client_result :
    (∀ (m : ℕ) (st : CtrlState) (r : Report),
        clientResult m st r = (st.latency.merge r.latency).map
          (fun lat => { resultCount := st.resultCount + 1,
                        throughput := st.throughput.update1 r.throughput,
                        latency := lat,
                        done := st.done || decide (st.resultCount + 1 = m) })) ∧
      (processReports 3 initCtrl
          [mkReport 100, mkReport 200, mkReport 300]).map
          (fun s => (s.throughput.min, s.throughput.max, s.throughput.count,
                     s.throughput.average, s.done)) =
        Except.ok (some 100, some 300, 3, some 200, true) := by
  refine ⟨clientResult_eq, ?_⟩
  norm_num [processReports, List.foldlM, clientResult, Stats.update,
    Stats.merge, Stats.updateFull, Stats.updateCore, pyOr, Stats.empty,
    initCtrl, mkReport, oneStat, ok_bind, Except.map]

/-- C5 (counterexample): the claim fails as stated.  Starting a run on a
controller whose aggregates already hold data (latency built from sample
`4`, throughput from sample `2`), the dispatch resets the received count
to `0` and clears the event, but both aggregate statistics keep their old
contents — they are not reset to the empty state (and a run completing
with no reports then reports those stale aggregates). -/
theorem C5_counterexample :
    (runRpcTest (some 1)
        { resultCount := 7, throughput := Stats.ofList [2],
          latency := Stats.ofList [4], done := true } [] true).map
        (fun tr => (tr.outcome, tr.state.resultCount, tr.state.done)) =
      Except.ok
        (RunOutcome.completed (Stats.ofList [4]) (Stats.ofList [2]) 0,
          0, false) ∧
      Stats.ofList [4] ≠ Stats.empty := by
  constructor
  · rfl
  · norm_num [Stats.ofList, Stats.update1, Stats.updateCore, pyOr,
      Stats.empty]

/-- C5 (amended): on a dispatch with at least one visible worker the
coordinator resets the received-reporter count to `0` and clears the
completion event before broadcasting, but does NOT reset the aggregate
statistics — a run that completes with no interleaved reports reports
exactly the pre-existing aggregates with a reporter count of `0`.  (The
aggregates of a fresh controller are empty only because `__init__` creates
them so, and every command-line path creates a new controller per test.) -/
theorem C5_dispatch_reset (m : ℕ) (st : CtrlState) :
    runRpcTest (some (m + 1)) st [] true =
      Except.ok ⟨RunOutcome.completed st.latency st.throughput 0,
        { resultCount := 0, throughput := st.throughput,
          latency := st.latency, done := false }, true, none⟩ :=
  rfl

/-- C6 (code bug): on the RPC controller a run whose completion wait comes
back `false` reports the timeout outcome, which is distinct from every
completed outcome and carries no aggregate statistics (first and second
conjuncts); but on the notify controller the same situation evaluates the
undefined name `meth` and raises `NameError` instead of reporting the
timeout (third conjunct). -/
theorem C6_timeout_behavior :
    runRpcTest (some 2) initCtrl [] false =
        Except.ok ⟨RunOutcome.timedOut, initCtrl, true, none⟩ ∧
      (∀ (lat th : Stats) (n : ℕ),
          decide (RunOutcome.timedOut = RunOutcome.completed lat th n) =
            false) ∧
      runNotifyTest (some 2) initCtrl [] false =
        Except.error "NameError: name meth is not defined" := by
  refine ⟨rfl, ?_, rfl⟩
  intro lat th n
  exact decide_eq_false (fun h => RunOutcome.noConfusion h)

/-- C7 (confirmed): when the registry records no minion of the required
role — the key is absent (`none`) or maps to `0` — both controllers report
the no-clients outcome (the printed diagnostic) and return `-1`, broadcast
nothing, and leave the per-run state exactly as it was, whatever that
state, the incoming reports and the wait result would have been. -/
theorem C7_no_clients :
    ∀ (st : CtrlState) (reports : List Report) (waitOk : Bool),
      runRpcTest none st reports waitOk =
          Except.ok ⟨RunOutcome.noClients, st, false, some (-1)⟩ ∧
        runRpcTest (some 0) st reports waitOk =
          Except.ok ⟨RunOutcome.noClients, st, false, some (-1)⟩ ∧
        runNotifyTest none st reports waitOk =
          Except.ok ⟨RunOutcome.noClients, st, false, some (-1)⟩ ∧
        runNotifyTest (some 0) st reports waitOk =
          Except.ok ⟨RunOutcome.noClients, st, false, some (-1)⟩ :=
  fun _ _ _ => ⟨rfl, rfl, rfl, rfl⟩

/-- C9 (confirmed): both statistics fresh (`count = 0` each, never
updated), so `merge` is called on two empty statistics; the unguarded
recomputation `self.average = self.total / n` divides by `n = 0` and
raises `ZeroDivisionError` — reachable at the public interface. -/
theorem C9_empty_merge :
    Stats.empty.count = 0 ∧
      Stats.empty.merge Stats.empty = Except.error "ZeroDivisionError" :=
  ⟨rfl, rfl⟩

/-- C10 (confirmed), first part: starting with the event clear, if along a
report sequence the incremented received count never equals the recorded
minion count seen by that report, the completion event is still clear at
the end, and a wait with no timeout configured never returns (`waitOutcome
none` is `none`).  Second part: one `client_result` call sets the event
exactly when the incremented count equals the recorded minion count (and
never clears it). -/
theorem C10_done_signal :
    (∀ (l : List (ℕ × Report)) (st : CtrlState),
        st.done = false → noHit st.resultCount l = true →
          (processReportsVar st l).map
              (fun s => (s.done, waitOutcome none s.done)) =
            (processReportsVar st l).map (fun _ => (false, none))) ∧
      (∀ (m : ℕ) (st : CtrlState) (r : Report),
          (clientResult m st r).map CtrlState.done =
            (st.latency.merge r.latency).map
              (fun _ => st.done || decide (st.resultCount + 1 = m))) := by
  constructor
  · intro l
    induction l with
    | nil =>
      intro st hd _
      rw [processReportsVar]
      rw [List.foldlM_nil]
      show Except.ok (st.done, waitOutcome none st.done) = _
      rw [hd]
      rfl
    | cons p rest ih =>
      intro st hd hnh
      rw [noHit, Bool.and_eq_true, decide_eq_true_eq] at hnh
      obtain ⟨hne, hrest⟩ := hnh
      rw [processReportsVar, List.foldlM_cons, clientResult_eq]
      cases h : st.latency.merge p.2.latency with
      | error e => rfl
      | ok lat =>
        have hdone : (st.done || decide (st.resultCount + 1 = p.1)) = false := by
          rw [hd, decide_eq_false hne]
          rfl
        exact ih _ hdone hrest
  · intro m st r
    rw [clientResult_eq]
    cases h : st.latency.merge r.latency with
    | error e => rfl
    | ok lat => rfl

/-- Witness for C10: a single report arriving while the registry records 5
minions leaves the event clear, so the untimed wait never returns. -/
theorem C10_done_signal_witness :
    (processReportsVar initCtrl [(5, mkReport 100)]).map
        (fun s => (s.done, waitOutcome none s.done)) =
      (processReportsVar initCtrl [(5, mkReport 100)]).map
        (fun _ => (false, none)) :=
  C10_done_signal.1 [(5, mkReport 100)] initCtrl rfl (by decide)

/-!
Minion test loop.  `RPCTestClient._run_rpc_test` (rpcclient.py lines
297-319) and `TestNotifier.test_notify` (lines 401-425) run the same loop:
time each call of the underlying operation, feed the elapsed milliseconds
into a local latency statistic, and stop once `count and calls >= count`
holds.  Time is abstracted by `dur i`, the elapsed seconds of iteration
`i`, and `totalSecs`, the elapsed seconds of the whole loop
(`now() - t_start`); the underlying operation is assumed not to raise (an
exception would abort the loop, which no claim here covers).  The loop is
embedded with explicit fuel: `none` means the fuel was exhausted, so no
finite iteration budget suffices — the loop does not terminate.
-/

/-- The loop exit test `if count and calls >= count` (rpcclient.py lines
313-314): `count = 0` is falsy in Python, so the conjunction is false and
the loop never stops. -/
def stopCheck (count calls : ℕ) : Bool :=
  (count != 0) && decide (count ≤ calls)

/-- One-loop body per unit of fuel: update the latency statistic with the
iteration's elapsed milliseconds (`(now() - t) * 1000`), increment
`calls`, and exit when `stopCheck` fires. -/
def testLoop (count : ℕ) (dur : ℕ → ℚ) : ℕ → Stats → ℕ → Option (Stats × ℕ)
  | 0, _, _ => none
  | fuel + 1, latency, calls =>
      let latency2 := latency.update1 (dur calls * 1000)
      let calls2 := calls + 1
      if stopCheck count calls2 then some (latency2, calls2)
      else testLoop count dur fuel latency2 calls2

/-- Embedding of the whole of `_run_rpc_test` / `test_notify`: run the
loop from a fresh local statistic, then build the single report
`{latency-statistic, throughput = calls / (now() - t_start), calls}` that
is sent to the controller with one addressed cast. -/
def runTestLoop (count : ℕ) (dur : ℕ → ℚ) (totalSecs : ℚ) (fuel : ℕ) :
    Option Report :=
  (testLoop count dur fuel Stats.empty 0).map
    (fun p => { latency := p.1, throughput := (p.2 : ℚ) / totalSecs,
                calls := p.2 })

theorem testLoop_zero (dur : ℕ → ℚ) :
    ∀ (fuel : ℕ) (latency : Stats) (calls : ℕ),
      testLoop 0 dur fuel latency calls = none := by
  intro fuel
  induction fuel with
  | zero => intro latency calls; rfl
  | succ f ih =>
    intro latency calls
    rw [testLoop]
    rw [if_neg (by simp [stopCheck])]
    exact ih _ _

theorem testLoop_run (count : ℕ) (dur : ℕ → ℚ) :
    ∀ (fuel calls : ℕ) (latency : Stats), calls < count →
      count ≤ calls + fuel →
      testLoop count dur fuel latency calls =
        some (((List.range' calls (count - calls)).map
            (fun i => dur i * 1000)).foldl Stats.update1 latency, count) := by
  intro fuel
  induction fuel with
  | zero =>
    intro calls latency h1 h2
    omega
  | succ f ih =>
    intro calls latency h1 h2
    rw [testLoop]
    rcases Nat.lt_or_ge (calls + 1) count with hlt | hge
    · rw [if_neg (by simp [stopCheck]; omega)]
      rw [ih (calls + 1) _ hlt (by omega)]
      have hn : count - calls = (count - (calls + 1)) + 1 := by omega
      rw [hn, List.range'_succ, List.map_cons, List.foldl_cons]
    · have heq : count = calls + 1 := by omega
      rw [if_pos (by simp [stopCheck]; omega)]
      have hn : count - calls = 1 := by omega
      rw [hn]
      rw [show List.range' calls 1 = [calls] from rfl]
      rw [List.map_singleton, List.foldl_cons, List.foldl_nil, heq]

/-- C8 (confirmed): for `count ≥ 1` and any iteration budget of at least
`count`, the loop stops after exactly `count` iterations, having fed each
iteration's elapsed milliseconds into the local latency statistic, and
produces the single report containing that statistic, throughput
`count / totalSecs`, and the iteration count (first conjunct); for
`count = 0` the exit test never fires, so no fuel suffices — the loop
does not terminate (second conjunct). -/
theorem C8_test_loop :
    (∀ (count : ℕ) (dur : ℕ → ℚ) (totalSecs : ℚ) (fuel : ℕ),
        1 ≤ count → count ≤ fuel →
        runTestLoop count dur totalSecs fuel =
          some { latency :=
                   Stats.ofList ((List.range count).map (fun i => dur i * 1000)),
                 throughput := (count : ℚ) / totalSecs, calls := count }) ∧
      (∀ (dur : ℕ → ℚ) (fuel : ℕ) (latency : Stats) (calls : ℕ),
          testLoop 0 dur fuel latency calls = none) := by
  constructor
  · intro count dur totalSecs fuel h1 h2
    rw [runTestLoop, testLoop_run count dur fuel 0 Stats.empty (by omega)
      (by omega)]
    rw [show count - 0 = count from rfl, ← List.range_eq_range']
    rfl
  · exact fun dur fuel latency calls => testLoop_zero dur fuel latency calls

/-- Witness for C8: one iteration of duration 2 seconds with a total
elapsed time of 4 seconds yields one report with a single 2000 ms latency
sample, throughput 1/4, and one call. -/
theorem C8_test_loop_witness :
    runTestLoop 1 (fun _ => 2) 4 1 =
      some { latency := Stats.ofList ((List.range 1).map
               (fun _ => (2 : ℚ) * 1000)),
             throughput := (1 : ℚ) / 4, calls := 1 } :=
  C8_test_loop.1 1 (fun _ => 2) 4 1 (by omega) (by omega)
